import Mathlib

/-!
Shallow embedding of `src/infrastructure/limiter/rate_limiter.rs`:
a per-key hybrid rate limiter (token bucket + sliding window) with a
concurrent store and idle eviction.

Modelling choices:
* `f64` values (capacities, token counts, seconds) are modelled as `ℚ`,
  so arithmetic is exact; the source's `1e-12` epsilon is `1 / 10^12`.
* `Instant` is a rational timestamp; `Instant::duration_since` saturates
  at zero, modelled by `dsince`.
* Mutation is explicit state passing: each method returns its result
  together with the updated state.
* The `as u64` cast of a ceiled `f64` saturates at zero for negative
  values, modelled by `Int.toNat`.
-/

namespace RateLimiter

attribute [local semireducible] Rat.add Rat.sub Rat.mul Rat.inv

/-- The floating-point tolerance used by `TokenBucket::try_consume`. -/
def eps : ℚ := 1 / 10 ^ 12

/-- Model of `Instant::duration_since`: elapsed time, saturating at zero. -/
def dsince (now earlier : ℚ) : ℚ := max (now - earlier) 0

/-- The `TokenBucket` struct from the source. -/
structure TokenBucket where
  capacity : ℚ
  tokens : ℚ
  refill_per_sec : ℚ
  last_refill : ℚ
deriving DecidableEq

/-- Model of `TokenBucket::new`: a full bucket timestamped `now`. -/
def TokenBucket.new (capacity refill_per_sec now : ℚ) : TokenBucket :=
  { capacity := capacity
    tokens := capacity
    refill_per_sec := refill_per_sec
    last_refill := now }

/-- Model of `TokenBucket::refill`: add `elapsed * refill_per_sec`, capped at
`capacity`, and advance `last_refill`, when `elapsed > 0`. -/
def TokenBucket.refill (b : TokenBucket) (now : ℚ) : TokenBucket :=
  if 0 < dsince now b.last_refill then
    { b with
      tokens :=
        min (b.tokens + dsince now b.last_refill * b.refill_per_sec)
          b.capacity
      last_refill := now }
  else b

/-- Model of `TokenBucket::try_consume`: refill, then consume `amount` if
`tokens + eps ≥ amount`. Returns the success flag and the new state. -/
def TokenBucket.try_consume (b : TokenBucket) (amount now : ℚ) :
    Bool × TokenBucket :=
  if amount ≤ (b.refill now).tokens + eps then
    (true, { b.refill now with tokens := (b.refill now).tokens - amount })
  else
    (false, b.refill now)

/-- Model of `TokenBucket::remaining`. -/
def TokenBucket.remaining (b : TokenBucket) : ℚ := b.tokens

/-- The `SlidingWindow` struct from the source. -/
structure SlidingWindow where
  window_size : ℚ
  limit : ℕ
  current_window_start : ℚ
  current_count : ℕ
  prev_count : ℕ
deriving DecidableEq

/-- Model of `SlidingWindow::new`. -/
def SlidingWindow.new (window_size : ℚ) (limit : ℕ) (now : ℚ) :
    SlidingWindow :=
  { window_size := window_size
    limit := limit
    current_window_start := now
    current_count := 0
    prev_count := 0 }

/-- The rollover step at the top of `SlidingWindow::allow`: when
`elapsed ≥ window_size`, shift `current_count` into `prev_count`, zero
`current_count` and restart the window at `now`. -/
def SlidingWindow.rolled (w : SlidingWindow) (now : ℚ) : SlidingWindow :=
  if w.window_size ≤ dsince now w.current_window_start then
    { w with
      prev_count := w.current_count
      current_count := 0
      current_window_start := now }
  else w

/-- The `effective` value computed inside `SlidingWindow::allow`.
Note that `weight` uses the elapsed time measured BEFORE the rollover
(the source does not recompute `elapsed` after resetting
`current_window_start`), while the counts are the post-rollover ones. -/
def SlidingWindow.allowEffective (w : SlidingWindow) (now : ℚ) : ℚ :=
  let weight := dsince now w.current_window_start / w.window_size
  ((w.rolled now).prev_count : ℚ) * (1 - weight) +
    ((w.rolled now).current_count : ℚ)

/-- Model of `SlidingWindow::allow`: returns `(allowed, effective_count)` and the
new state. -/
def SlidingWindow.allow (w : SlidingWindow) (now : ℚ) :
    (Bool × ℚ) × SlidingWindow :=
  let w1 := w.rolled now
  let effective := w.allowEffective now
  if effective < (w1.limit : ℚ) then
    ((true, effective + 1), { w1 with current_count := w1.current_count + 1 })
  else
    ((false, effective), w1)

/-- The `RateHybridLimiter` struct from the source. -/
structure RateHybridLimiter where
  bucket : TokenBucket
  window : SlidingWindow
  last_seen : ℚ
  per_second_limit : ℕ
deriving DecidableEq

/-- Model of `RateHybridLimiter::new`. -/
def RateHybridLimiter.new (capacity refill_per_sec window_size : ℚ)
    (limit : ℕ) (now : ℚ) : RateHybridLimiter :=
  { bucket := TokenBucket.new capacity refill_per_sec now
    window := SlidingWindow.new window_size limit now
    last_seen := now
    per_second_limit := limit }

/-- Model of `RateHybridLimiter::is_allowed`: returns
`(allowed, remaining_estimate, retry_after_secs)` and the new state. -/
def RateHybridLimiter.is_allowed (l : RateHybridLimiter) (now : ℚ) :
    (Bool × ℚ × Option ℕ) × RateHybridLimiter :=
  let l0 := { l with last_seen := now }
  let consumed := l0.bucket.try_consume 1 now
  let b1 := consumed.2
  if consumed.1 then
    ((true, b1.remaining, none), { l0 with bucket := b1 })
  else
    let wres := l0.window.allow now
    let l1 := { l0 with bucket := b1, window := wres.2 }
    if wres.1.1 then
      ((true, max 0 b1.remaining, none), l1)
    else
      let tokens_needed := 1 - b1.remaining
      let retry_after : ℕ :=
        if 0 < tokens_needed then
          max (⌈tokens_needed / b1.refill_per_sec⌉.toNat) 1
        else 1
      ((false, b1.remaining, some retry_after), l1)

/-- Model of `RateHybridLimiter::remaining_limit`. -/
def RateHybridLimiter.remaining_limit (l : RateHybridLimiter) : ℕ :=
  l.per_second_limit

/-- The `RateHybridLimiterStore` struct: the per-key map (an association list keyed
by `String`, standing for the `DashMap`) plus the default construction
parameters and the idle TTL. -/
structure RateHybridLimiterStore where
  map : List (String × RateHybridLimiter)
  default_capacity : ℚ
  default_refill_per_sec : ℚ
  default_window_size : ℚ
  default_limit : ℕ
  bucket_ttl : ℚ
deriving DecidableEq

/-- Model of `RateHybridLimiterStore::new`: an empty map with the given defaults
(the background eviction task is modelled separately by `sweep`). -/
def RateHybridLimiterStore.new (capacity refill_per_sec window_size : ℚ)
    (limit : ℕ) (bucket_ttl : ℚ) : RateHybridLimiterStore :=
  { map := []
    default_capacity := capacity
    default_refill_per_sec := refill_per_sec
    default_window_size := window_size
    default_limit := limit
    bucket_ttl := bucket_ttl }

/-- Model of `RateHybridLimiterStore::get_bucket`: look the key up, creating a
fresh limiter from the defaults when absent. Returns the limiter for the
key and the (possibly extended) store. -/
def RateHybridLimiterStore.get_bucket (s : RateHybridLimiterStore)
    (key : String) (now : ℚ) : RateHybridLimiter × RateHybridLimiterStore :=
  match s.map.lookup key with
  | some l => (l, s)
  | none =>
      let l := RateHybridLimiter.new s.default_capacity
        s.default_refill_per_sec s.default_window_size s.default_limit now
      (l, { s with map := (key, l) :: s.map })

/-- Store the updated limiter back under its key (the effect that the
source obtains by mutating through the `Arc<Mutex<_>>`). -/
def storeBack (m : List (String × RateHybridLimiter)) (key : String)
    (l : RateHybridLimiter) : List (String × RateHybridLimiter) :=
  m.map fun p => if p.1 = key then (key, l) else p

/-- Model of `RateHybridLimiterStore::is_allowed`: get-or-create the key's
limiter, run its decision protocol, and return the decision augmented
with the configured per-second limit. -/
def RateHybridLimiterStore.is_allowed (s : RateHybridLimiterStore)
    (key : String) (now : ℚ) :
    (Bool × ℚ × Option ℕ × ℕ) × RateHybridLimiterStore :=
  let got := s.get_bucket key now
  let res := got.1.is_allowed now
  ((res.1.1, res.1.2.1, res.1.2.2, res.2.remaining_limit),
    { got.2 with map := storeBack got.2.map key res.2 })

/-- One cycle of the background eviction task: remove every entry whose
limiter's `last_seen` is older than `bucket_ttl` at scan time `now`. -/
def RateHybridLimiterStore.sweep (s : RateHybridLimiterStore) (now : ℚ) :
    RateHybridLimiterStore :=
  { s with
    map := s.map.filter fun p =>
      decide (dsince now p.2.last_seen ≤ s.bucket_ttl) }

/-- Iterated unit consumption on a bucket, all at the same instant. -/
def consumeN (b : TokenBucket) (now : ℚ) : ℕ → TokenBucket
  | 0 => b
  | n + 1 => ((consumeN b now n).try_consume 1 now).2

/-- Iterated `allow` on a sliding window, all at the same instant. -/
def windowIter (w : SlidingWindow) (now : ℚ) : ℕ → SlidingWindow
  | 0 => w
  | n + 1 => ((windowIter w now n).allow now).2

/-- Iterated `is_allowed` on the store for a fixed key, all at the same
instant. -/
def storeIter (s : RateHybridLimiterStore) (key : String) (now : ℚ) :
    ℕ → RateHybridLimiterStore
  | 0 => s
  | n + 1 => ((storeIter s key now n).is_allowed key now).2

/-- The result of the `(n+1)`-th `is_allowed` call in `storeIter`. -/
def storeCall (s : RateHybridLimiterStore) (key : String) (now : ℚ)
    (n : ℕ) : Bool × ℚ × Option ℕ × ℕ :=
  ((storeIter s key now n).is_allowed key now).1

/-- The limiter stored for `key` after `n` calls of `storeIter`. -/
def storeLimiter (s : RateHybridLimiterStore) (key : String) (now : ℚ)
    (n : ℕ) : Option RateHybridLimiter :=
  (storeIter s key now n).map.lookup key

/-- A bucket operation at a given instant, for stating state-machine
invariants over arbitrary call sequences. -/
inductive BucketOp where
  | refillAt : ℚ → BucketOp
  | consumeAt : ℚ → ℚ → BucketOp

/-- Apply one operation to a bucket (the consume result flag is
discarded; only the state evolution matters for the invariants). -/
def BucketOp.apply (b : TokenBucket) : BucketOp → TokenBucket
  | .refillAt now => b.refill now
  | .consumeAt amount now => (b.try_consume amount now).2

/-- The operation's consumption amount is non-negative. -/
def BucketOp.nonneg : BucketOp → Prop
  | .refillAt _ => True
  | .consumeAt amount _ => 0 ≤ amount

/-- The operation is a unit consumption or a refill (the only operations
the limiter itself ever performs on its bucket). -/
def BucketOp.unit : BucketOp → Prop
  | .refillAt _ => True
  | .consumeAt amount _ => amount = 1

/-- Run a sequence of bucket operations. -/
def applyOps (b : TokenBucket) (ops : List BucketOp) : TokenBucket :=
  ops.foldl BucketOp.apply b

theorem eps_pos : 0 < eps := by norm_num [eps]

theorem eps_lt_one : eps < 1 := by norm_num [eps]

theorem dsince_nonneg (now earlier : ℚ) : 0 ≤ dsince now earlier :=
  le_max_right _ _

theorem refill_capacity (b : TokenBucket) (now : ℚ) :
    (b.refill now).capacity = b.capacity := by
  unfold TokenBucket.refill
  split <;> rfl

theorem refill_rate (b : TokenBucket) (now : ℚ) :
    (b.refill now).refill_per_sec = b.refill_per_sec := by
  unfold TokenBucket.refill
  split <;> rfl

theorem try_consume_capacity (b : TokenBucket) (amount now : ℚ) :
    ((b.try_consume amount now).2).capacity = b.capacity := by
  unfold TokenBucket.try_consume
  split <;> simp [refill_capacity]

theorem try_consume_rate (b : TokenBucket) (amount now : ℚ) :
    ((b.try_consume amount now).2).refill_per_sec = b.refill_per_sec := by
  unfold TokenBucket.try_consume
  split <;> simp [refill_rate]

theorem refill_of_nonpos_elapsed (b : TokenBucket) (now : ℚ)
    (h : now ≤ b.last_refill) : b.refill now = b := by
  unfold TokenBucket.refill dsince
  have hle : max (now - b.last_refill) 0 ≤ 0 := by
    simp [max_le_iff, sub_nonpos]
    exact h
  simp [not_lt.mpr hle]

theorem refill_tokens_le_cap (b : TokenBucket) (now : ℚ)
    (h : b.tokens ≤ b.capacity) :
    (b.refill now).tokens ≤ (b.refill now).capacity := by
  unfold TokenBucket.refill
  split
  · exact min_le_right _ _
  · simp [h]

theorem tokens_le_cap_apply (b : TokenBucket) (op : BucketOp)
    (hop : op.nonneg) (h : b.tokens ≤ b.capacity) :
    (op.apply b).tokens ≤ (op.apply b).capacity := by
  cases op with
  | refillAt now => exact refill_tokens_le_cap b now h
  | consumeAt amount now =>
      have hb := refill_tokens_le_cap b now h
      have ha : 0 ≤ amount := hop
      simp only [BucketOp.apply, TokenBucket.try_consume]
      split
      · simp only
        calc (b.refill now).tokens - amount ≤ (b.refill now).tokens := by
              linarith
          _ ≤ (b.refill now).capacity := hb
      · exact hb

theorem tokens_le_cap_fold (ops : List BucketOp)
    (hops : ∀ op ∈ ops, BucketOp.nonneg op) (b : TokenBucket)
    (h : b.tokens ≤ b.capacity) :
    (applyOps b ops).tokens ≤ (applyOps b ops).capacity := by
  induction ops generalizing b with
  | nil => simpa [applyOps] using h
  | cons op t ih =>
      have hop : op.nonneg := hops op (List.mem_cons_self op t)
      have ht : ∀ o ∈ t, BucketOp.nonneg o := fun o ho =>
        hops o (List.mem_cons_of_mem op ho)
      simpa [applyOps] using
        ih ht (op.apply b) (tokens_le_cap_apply b op hop h)

/-- C3 counterexample: a bucket with zero tokens, refill rate 1/10 and
`last_refill = 0`, asked to consume one token at `now = 1`, rejects the
request but does NOT leave `tokens` and `last_refill` at their pre-call
values: the preliminary refill has already changed both. -/
theorem try_consume_failure_mutates :
    (((⟨10, 0, 1/10, 0⟩ : TokenBucket).try_consume 1 1).1 = false) ∧
    (((⟨10, 0, 1/10, 0⟩ : TokenBucket).try_consume 1 1).2.tokens ≠ 0) ∧
    (((⟨10, 0, 1/10, 0⟩ : TokenBucket).try_consume 1 1).2.last_refill ≠ 0) := by
  refine ⟨by decide, by decide, by decide⟩

/-- C3 (amended): `try_consume` first refills; it succeeds exactly when
the refilled tokens plus the epsilon reach `amount`, in which case it
subtracts `amount`; on failure the state is exactly the refilled state —
which coincides with the pre-call state only when no time has elapsed
since `last_refill`. -/
theorem try_consume_spec (b : TokenBucket) (amount now : ℚ) :
    ((b.try_consume amount now).1 = true ↔
      amount ≤ (b.refill now).tokens + eps) ∧
    ((b.try_consume amount now).1 = true →
      (b.try_consume amount now).2 =
        { b.refill now with tokens := (b.refill now).tokens - amount }) ∧
    ((b.try_consume amount now).1 = false →
      (b.try_consume amount now).2 = b.refill now) ∧
    (now ≤ b.last_refill → b.refill now = b) := by
  refine ⟨?_, ?_, ?_, refill_of_nonpos_elapsed b now⟩ <;>
    · unfold TokenBucket.try_consume
      split <;> simp_all

/-- Witness for `try_consume_spec` at a concrete input: the failing call
of the counterexample leaves exactly the refilled state. -/
theorem try_consume_spec_witness :
    ((⟨10, 0, 1/10, 0⟩ : TokenBucket).try_consume 1 1).2 =
      (⟨10, 0, 1/10, 0⟩ : TokenBucket).refill 1 :=
  (try_consume_spec ⟨10, 0, 1/10, 0⟩ 1 1).2.2.1 (by decide)

theorem apply_capacity (b : TokenBucket) (op : BucketOp) :
    (op.apply b).capacity = b.capacity := by
  cases op with
  | refillAt now => exact refill_capacity b now
  | consumeAt amount now => exact try_consume_capacity b amount now

theorem applyOps_capacity (ops : List BucketOp) (b : TokenBucket) :
    (applyOps b ops).capacity = b.capacity := by
  induction ops generalizing b with
  | nil => rfl
  | cons op t ih =>
      show (applyOps (op.apply b) t).capacity = b.capacity
      rw [ih, apply_capacity]

/-- C4: when time has elapsed, `refill` adds `elapsed * refill_per_sec`
capped at `capacity` and advances `last_refill` to `now`; with no
elapsed time it leaves `tokens` unchanged; and over any sequence of
`new`/`refill`/`try_consume` operations (with non-negative consumption
amounts) the token count never exceeds the configured capacity. -/
theorem refill_spec_and_cap (b : TokenBucket) (now : ℚ)
    (capacity refill_per_sec t0 : ℚ) (ops : List BucketOp)
    (hops : ∀ op ∈ ops, BucketOp.nonneg op) :
    (0 < dsince now b.last_refill →
      ((b.refill now).tokens =
          min (b.tokens + dsince now b.last_refill * b.refill_per_sec)
            b.capacity ∧
        (b.refill now).last_refill = now)) ∧
    (dsince now b.last_refill ≤ 0 → (b.refill now).tokens = b.tokens) ∧
    (applyOps (TokenBucket.new capacity refill_per_sec t0) ops).tokens ≤
      capacity := by
  refine ⟨?_, ?_, ?_⟩
  · intro h
    unfold TokenBucket.refill
    rw [if_pos h]
    exact ⟨rfl, rfl⟩
  · intro h
    unfold TokenBucket.refill
    rw [if_neg (not_lt.mpr h)]
  · have h := tokens_le_cap_fold ops hops
      (TokenBucket.new capacity refill_per_sec t0) le_rfl
    rwa [applyOps_capacity] at h

/-- Witness for `refill_spec_and_cap`: after one unit consumption on a
fresh bucket of capacity 10, the token count is still at most 10. -/
theorem refill_spec_and_cap_witness :
    (applyOps (TokenBucket.new 10 1 0) [BucketOp.consumeAt 1 0]).tokens ≤
      10 :=
  (refill_spec_and_cap ⟨10, 10, 1, 0⟩ 1 10 1 0 [BucketOp.consumeAt 1 0]
    (by intro op hop
        simp only [List.mem_singleton] at hop
        subst hop
        show (0 : ℚ) ≤ 1
        norm_num)).2.2

theorem consumeN_fresh (C : ℕ) (r t0 : ℚ) :
    ∀ k, k ≤ C → consumeN (TokenBucket.new (C : ℚ) r t0) t0 k =
      ⟨(C : ℚ), (C : ℚ) - (k : ℚ), r, t0⟩ := by
  intro k
  induction k with
  | zero =>
      intro _
      simp [consumeN, TokenBucket.new]
  | succ n ih =>
      intro hk
      have hn := Nat.le_of_succ_le hk
      have hcast : ((n : ℚ) + 1) ≤ (C : ℚ) := by exact_mod_cast hk
      have hcond : (1 : ℚ) ≤ (C : ℚ) - (n : ℚ) + eps := by
        have := eps_pos
        linarith
      rw [consumeN, ih hn]
      unfold TokenBucket.try_consume
      rw [refill_of_nonpos_elapsed _ _ le_rfl]
      rw [if_pos hcond]
      simp only [TokenBucket.mk.injEq, true_and, and_true]
      push_cast
      ring

/-- C5: a bucket freshly created with integer capacity `C` admits
exactly `C` consecutive unit consumptions with zero elapsed time: each
of the first `C` calls succeeds and the `(C+1)`-th fails. -/
theorem fresh_bucket_admits_exactly_capacity (C : ℕ) (_hC : 0 < C)
    (r t0 : ℚ) :
    (∀ k < C,
      ((consumeN (TokenBucket.new (C : ℚ) r t0) t0 k).try_consume
        1 t0).1 = true) ∧
    ((consumeN (TokenBucket.new (C : ℚ) r t0) t0 C).try_consume
      1 t0).1 = false := by
  constructor
  · intro k hk
    rw [consumeN_fresh C r t0 k (le_of_lt hk)]
    have hcast : ((k : ℚ) + 1) ≤ (C : ℚ) := by exact_mod_cast hk
    have hcond : (1 : ℚ) ≤ (C : ℚ) - (k : ℚ) + eps := by
      have := eps_pos
      linarith
    unfold TokenBucket.try_consume
    rw [refill_of_nonpos_elapsed _ _ le_rfl]
    rw [if_pos hcond]
  · rw [consumeN_fresh C r t0 C le_rfl]
    have hcond : ¬ ((1 : ℚ) ≤ (C : ℚ) - (C : ℚ) + eps) := by
      have := eps_lt_one
      intro hcontra
      linarith
    unfold TokenBucket.try_consume
    rw [refill_of_nonpos_elapsed _ _ le_rfl]
    rw [if_neg hcond]

/-- Witness for `fresh_bucket_admits_exactly_capacity` at capacity 3:
the fourth unit consumption on a fresh bucket of capacity 3 fails. -/
theorem fresh_bucket_admits_witness :
    ((consumeN (TokenBucket.new ((3 : ℕ) : ℚ) 1 0) 0 3).try_consume
      1 0).1 = false :=
  (fresh_bucket_admits_exactly_capacity 3 (by decide) 1 0).2

theorem rolled_limit (w : SlidingWindow) (now : ℚ) :
    (w.rolled now).limit = w.limit := by
  unfold SlidingWindow.rolled
  split <;> rfl

/-- C6: `allow` admits a request exactly when the effective count is
strictly below the limit (a request landing exactly at the limit is
rejected); concretely, a fresh window with limit 5 and window size 1s
admits five consecutive calls within the window and rejects the sixth. -/
theorem allow_strict_limit_and_scenario :
    (∀ (w : SlidingWindow) (now : ℚ),
      ((w.allow now).1.1 = true ↔ w.allowEffective now < (w.limit : ℚ))) ∧
    (∀ i < 5,
      ((windowIter (SlidingWindow.new 1 5 0) 0 i).allow 0).1.1 = true) ∧
    ((windowIter (SlidingWindow.new 1 5 0) 0 5).allow 0).1.1 = false := by
  refine ⟨?_, by decide, by decide⟩
  intro w now
  simp only [SlidingWindow.allow, rolled_limit]
  split
  · simp_all
  · simp_all

/-- Witness for `allow_strict_limit_and_scenario`: the fifth call on
the fresh limit-5 window is admitted. -/
theorem allow_strict_limit_witness :
    ((windowIter (SlidingWindow.new 1 5 0) 0 4).allow 0).1.1 = true :=
  allow_strict_limit_and_scenario.2.1 4 (by decide)

/-- C2 counterexample: starting from a fresh window (window size 1s,
limit 5) and one admitted call at time 0, the `allow` call at time 2
rolls the window over but computes the interpolation weight from the
pre-rollover elapsed time (2, not 0), yielding an effective count of
`-1 < 0` — refuting both the claimed recomputation of `elapsed` and the
claimed `effective_count ≥ 0` invariant, on a reachable state. -/
theorem rollover_effective_negative :
    ((((SlidingWindow.new 1 5 0).allow 0).2).allowEffective 2 = -1) ∧
    ((((SlidingWindow.new 1 5 0).allow 0).2).allow 2).1.1 = true :=
  ⟨by decide, by decide⟩

/-- C2 (amended): `allow` computes the interpolation weight from the
elapsed time measured before any rollover (it is not recomputed); hence
a call that does not roll the window over (`elapsed < window_size`)
computes a non-negative effective count, while a call that rolls over
computes a non-positive one (weight ≥ 1 makes the `prev_count` term
non-positive and `current_count` has just been zeroed). -/
theorem allowEffective_sign (w : SlidingWindow) (now : ℚ)
    (hpos : 0 < w.window_size) :
    (dsince now w.current_window_start < w.window_size →
      0 ≤ w.allowEffective now) ∧
    (w.window_size ≤ dsince now w.current_window_start →
      w.allowEffective now ≤ 0) := by
  constructor
  · intro h
    unfold SlidingWindow.allowEffective
    unfold SlidingWindow.rolled
    rw [if_neg (not_le.mpr h)]
    have hw : dsince now w.current_window_start / w.window_size < 1 :=
      (div_lt_one hpos).mpr h
    have h1 : 0 ≤ 1 - dsince now w.current_window_start / w.window_size :=
      by linarith
    exact add_nonneg (mul_nonneg (Nat.cast_nonneg _) h1) (Nat.cast_nonneg _)
  · intro h
    unfold SlidingWindow.allowEffective
    unfold SlidingWindow.rolled
    rw [if_pos h]
    have hw : 1 ≤ dsince now w.current_window_start / w.window_size :=
      (one_le_div hpos).mpr h
    have h1 : 1 - dsince now w.current_window_start / w.window_size ≤ 0 :=
      by linarith
    have h2 : (w.current_count : ℚ) *
        (1 - dsince now w.current_window_start / w.window_size) ≤ 0 :=
      mul_nonpos_of_nonneg_of_nonpos (Nat.cast_nonneg _) h1
    simpa using h2

/-- Witness for `allowEffective_sign`: a window of size 1 probed at
time 1/2 (no rollover) computes a non-negative effective count. -/
theorem allowEffective_sign_witness :
    0 ≤ (⟨1, 5, 0, 3, 2⟩ : SlidingWindow).allowEffective (1/2) :=
  (allowEffective_sign ⟨1, 5, 0, 3, 2⟩ (1/2) (by norm_num)).1 (by decide)

theorem try_consume_failure_state (b : TokenBucket) (amount now : ℚ)
    (h : (b.try_consume amount now).1 = false) :
    (b.try_consume amount now).2 = b.refill now := by
  by_cases hc : amount ≤ (b.refill now).tokens + eps
  · exfalso
    unfold TokenBucket.try_consume at h
    rw [if_pos hc] at h
    cases h
  · unfold TokenBucket.try_consume
    rw [if_neg hc]

theorem try_consume_failure_tokens_lt (b : TokenBucket) (amount now : ℚ)
    (h : (b.try_consume amount now).1 = false) :
    (b.refill now).tokens + eps < amount := by
  by_cases hc : amount ≤ (b.refill now).tokens + eps
  · exfalso
    unfold TokenBucket.try_consume at h
    rw [if_pos hc] at h
    cases h
  · exact not_le.mp hc

theorem is_allowed_bucket_path (l : RateHybridLimiter) (now : ℚ)
    (h : (l.bucket.try_consume 1 now).1 = true) :
    (l.is_allowed now).1 =
      (true, (l.bucket.try_consume 1 now).2.remaining, none) := by
  simp only [RateHybridLimiter.is_allowed, h, if_true]

theorem is_allowed_window_path (l : RateHybridLimiter) (now : ℚ)
    (h1 : (l.bucket.try_consume 1 now).1 = false)
    (h2 : (l.window.allow now).1.1 = true) :
    (l.is_allowed now).1 =
      (true, max 0 (l.bucket.try_consume 1 now).2.remaining, none) := by
  simp only [RateHybridLimiter.is_allowed, h1, h2, if_true, Bool.false_eq_true,
    if_false]

theorem is_allowed_deny_path (l : RateHybridLimiter) (now : ℚ)
    (h1 : (l.bucket.try_consume 1 now).1 = false)
    (h2 : (l.window.allow now).1.1 = false) :
    (l.is_allowed now).1 =
      (false, (l.bucket.try_consume 1 now).2.remaining,
        some (max (⌈(1 - (l.bucket.try_consume 1 now).2.remaining) /
          (l.bucket.try_consume 1 now).2.refill_per_sec⌉.toNat) 1)) := by
  have hlt : (l.bucket.try_consume 1 now).2.remaining < 1 := by
    have hfail := try_consume_failure_tokens_lt l.bucket 1 now h1
    have hst := try_consume_failure_state l.bucket 1 now h1
    have := eps_pos
    unfold TokenBucket.remaining
    rw [hst]
    linarith
  have hpos : 0 < 1 - (l.bucket.try_consume 1 now).2.remaining := by
    linarith
  simp only [RateHybridLimiter.is_allowed, h1, h2, Bool.false_eq_true,
    if_false, hpos, if_pos]

/-- C1: the two-stage decision protocol of `is_allowed`. Bucket success
reports the bucket's remaining tokens with no retry hint; on bucket
exhaustion a window success reports `max(0, remaining)` with no retry
hint; when both reject, the decision is a denial with
`retry_after = max(1, ceil((1 - remaining) / refill_per_sec))`. -/
theorem is_allowed_protocol (l : RateHybridLimiter) (now : ℚ) :
    ((l.bucket.try_consume 1 now).1 = true →
      (l.is_allowed now).1 =
        (true, (l.bucket.try_consume 1 now).2.remaining, none)) ∧
    ((l.bucket.try_consume 1 now).1 = false →
      (l.window.allow now).1.1 = true →
      (l.is_allowed now).1 =
        (true, max 0 (l.bucket.try_consume 1 now).2.remaining, none)) ∧
    ((l.bucket.try_consume 1 now).1 = false →
      (l.window.allow now).1.1 = false →
      ((l.is_allowed now).1.1 = false ∧
        (l.is_allowed now).1.2.2 =
          some (max 1 (⌈(1 - (l.bucket.try_consume 1 now).2.remaining) /
            l.bucket.refill_per_sec⌉.toNat)))) := by
  refine ⟨is_allowed_bucket_path l now, is_allowed_window_path l now, ?_⟩
  intro h1 h2
  rw [is_allowed_deny_path l now h1 h2]
  refine ⟨rfl, ?_⟩
  simp only [try_consume_rate, Nat.max_comm]

/-- Witness for `is_allowed_protocol`: on a full fresh limiter the
bucket path fires and reports the post-consumption token count. -/
theorem is_allowed_protocol_witness :
    ((⟨⟨10, 10, 1, 0⟩, ⟨1, 5, 0, 0, 0⟩, 0, 5⟩ :
      RateHybridLimiter).is_allowed 0).1 =
      (true, ((⟨10, 10, 1, 0⟩ : TokenBucket).try_consume 1 0).2.remaining,
        none) :=
  (is_allowed_protocol ⟨⟨10, 10, 1, 0⟩, ⟨1, 5, 0, 0, 0⟩, 0, 5⟩ 0).1
    (by decide)

theorem apply_rate (b : TokenBucket) (op : BucketOp) :
    (op.apply b).refill_per_sec = b.refill_per_sec := by
  cases op with
  | refillAt now => exact refill_rate b now
  | consumeAt amount now => exact try_consume_rate b amount now

theorem refill_tokens_lower (b : TokenBucket) (now : ℚ)
    (hr : 0 ≤ b.refill_per_sec) (hcap : 0 ≤ b.capacity)
    (h : -eps ≤ b.tokens) : -eps ≤ (b.refill now).tokens := by
  unfold TokenBucket.refill
  split
  · show -eps ≤ min _ _
    rw [le_min_iff]
    have hmul : 0 ≤ dsince now b.last_refill * b.refill_per_sec :=
      mul_nonneg (dsince_nonneg _ _) hr
    have := eps_pos
    constructor
    · linarith
    · linarith
  · exact h

theorem unit_apply_lower (b : TokenBucket) (op : BucketOp)
    (hop : op.unit) (hr : 0 ≤ b.refill_per_sec) (hcap : 0 ≤ b.capacity)
    (h : -eps ≤ b.tokens) : -eps ≤ (op.apply b).tokens := by
  cases op with
  | refillAt now => exact refill_tokens_lower b now hr hcap h
  | consumeAt amount now =>
      have ha : amount = 1 := hop
      subst ha
      show -eps ≤ ((b.try_consume 1 now).2).tokens
      unfold TokenBucket.try_consume
      split
      · rename_i hcond
        show -eps ≤ (b.refill now).tokens - 1
        linarith
      · exact refill_tokens_lower b now hr hcap h

theorem unit_fold_lower (ops : List BucketOp)
    (hops : ∀ op ∈ ops, BucketOp.unit op) (b : TokenBucket)
    (hr : 0 ≤ b.refill_per_sec) (hcap : 0 ≤ b.capacity)
    (h : -eps ≤ b.tokens) : -eps ≤ (applyOps b ops).tokens := by
  induction ops generalizing b with
  | nil => exact h
  | cons op t ih =>
      show -eps ≤ (applyOps (op.apply b) t).tokens
      refine ih (fun o ho => hops o (List.mem_cons_of_mem op ho))
        (op.apply b) ?_ ?_
        (unit_apply_lower b op (hops op (List.mem_cons_self op t)) hr hcap h)
      · rw [apply_rate]
        exact hr
      · rw [apply_capacity]
        exact hcap

/-- A limiter state reached by one boundary consumption (within the
epsilon) on a fresh bucket of capacity `1 - eps/2`, paired with a
zero-limit window: its next decision denies and reports a slightly
negative remaining value. -/
def denyLimiter : RateHybridLimiter :=
  { bucket := ((TokenBucket.new (1 - eps/2) 1 0).try_consume 1 0).2
    window := SlidingWindow.new 1 0 0
    last_seen := 0
    per_second_limit := 0 }

/-- C10: over any sequence of refills and unit consumptions starting
from a fresh bucket with non-negative capacity and refill rate, the
token count never falls below `-eps` (a boundary consumption within the
epsilon can leave it slightly negative); a window-path allowance always
reports the clamped value `max(0, remaining)` (hence never negative),
while a denial reports the raw, unclamped bucket value — and a concrete
reachable limiter exhibits a denial with negative reported remaining. -/
theorem tokens_lower_bound_and_clamping (capacity r t0 : ℚ)
    (hcap : 0 ≤ capacity) (hr : 0 ≤ r) (ops : List BucketOp)
    (hops : ∀ op ∈ ops, BucketOp.unit op) :
    (-eps ≤ (applyOps (TokenBucket.new capacity r t0) ops).tokens) ∧
    (∀ (l : RateHybridLimiter) (now : ℚ),
      (l.bucket.try_consume 1 now).1 = false →
      (l.window.allow now).1.1 = true →
      (l.is_allowed now).1.2.1 =
        max 0 (l.bucket.try_consume 1 now).2.tokens ∧
      0 ≤ (l.is_allowed now).1.2.1) ∧
    (∀ (l : RateHybridLimiter) (now : ℚ),
      (l.bucket.try_consume 1 now).1 = false →
      (l.window.allow now).1.1 = false →
      (l.is_allowed now).1.2.1 = (l.bucket.try_consume 1 now).2.tokens) ∧
    ((denyLimiter.is_allowed 0).1.1 = false ∧
      (denyLimiter.is_allowed 0).1.2.1 < 0) := by
  refine ⟨?_, ?_, ?_, by decide, by decide⟩
  · exact unit_fold_lower ops hops _ hr hcap
      (by show -eps ≤ capacity
          have := eps_pos
          linarith)
  · intro l now h1 h2
    rw [is_allowed_window_path l now h1 h2]
    exact ⟨rfl, le_max_left 0 _⟩
  · intro l now h1 h2
    rw [is_allowed_deny_path l now h1 h2]
    rfl

/-- Witness for `tokens_lower_bound_and_clamping`: a boundary unit
consumption on a fresh bucket of capacity `1 - eps/2` leaves at least
`-eps` tokens. -/
theorem tokens_lower_bound_witness :
    -eps ≤ (applyOps (TokenBucket.new (1 - eps/2) 1 0)
      [BucketOp.consumeAt 1 0]).tokens :=
  (tokens_lower_bound_and_clamping (1 - eps/2) 1 0 (by norm_num [eps])
    (by norm_num) [BucketOp.consumeAt 1 0]
    (by intro op hop
        simp only [List.mem_singleton] at hop
        subst hop
        show (1 : ℚ) = 1
        rfl)).1

/-- The store configured as in the scenario of the spec: capacity 10,
refill 1/s, window 60s, limit 20, TTL 300s. -/
def scenarioStore : RateHybridLimiterStore :=
  RateHybridLimiterStore.new 10 1 60 20 300

/-- C7: with capacity 10, refill 1/s, window 60s, limit 20, TTL 300s and
all requests at the same instant, the first ten calls succeed via the
bucket (remaining 9 down to 0, window count untouched), calls 11 through
30 succeed via the sliding window (bucket stuck at 0, window count
climbing to 20), and the 31st call — the 21st to reach the window — is
denied with `retry_after = 1 ≥ 1`. -/
theorem hybrid_scenario :
    (∀ i < 10,
      (storeCall scenarioStore "k" 0 i).1 = true ∧
      (storeCall scenarioStore "k" 0 i).2.1 = 10 - ((i : ℚ) + 1) ∧
      (storeCall scenarioStore "k" 0 i).2.2.1 = none ∧
      (storeLimiter scenarioStore "k" 0 (i + 1)).map
        (fun l => l.window.current_count) = some 0) ∧
    (∀ i < 30, 10 ≤ i →
      (storeCall scenarioStore "k" 0 i).1 = true ∧
      (storeCall scenarioStore "k" 0 i).2.2.1 = none ∧
      (storeLimiter scenarioStore "k" 0 (i + 1)).map
        (fun l => (l.bucket.tokens, l.window.current_count)) =
          some (0, i - 9)) ∧
    ((storeCall scenarioStore "k" 0 30).1 = false ∧
      (storeCall scenarioStore "k" 0 30).2.2.1 = some 1) := by
  refine ⟨by decide, by decide, by decide, by decide⟩

/-- Witness for `hybrid_scenario`: the 11th call (the first to fall
through to the sliding window) is admitted with no retry hint. -/
theorem hybrid_scenario_witness :
    (storeCall scenarioStore "k" 0 10).1 = true :=
  (hybrid_scenario.2.1 10 (by decide) (by decide)).1

theorem lookup_none_of_not_mem_keys
    (t : List (String × RateHybridLimiter)) (k : String)
    (h : k ∉ t.map Prod.fst) : t.lookup k = none := by
  induction t with
  | nil => rfl
  | cons hd tl ih =>
      obtain ⟨k1, v⟩ := hd
      simp only [List.map_cons, List.mem_cons] at h
      push_neg at h
      have hbeq : (k == k1) = false := beq_eq_false_iff_ne.mpr h.1
      simp [List.lookup_cons, hbeq, ih h.2]

theorem lookup_filter_none (p : String × RateHybridLimiter → Bool)
    (t : List (String × RateHybridLimiter)) (key : String)
    (h : t.lookup key = none) : (t.filter p).lookup key = none := by
  induction t with
  | nil => rfl
  | cons hd tl ih =>
      obtain ⟨k, v⟩ := hd
      by_cases hk : key = k
      · subst hk
        simp [List.lookup_cons] at h
      · have hbeq : (key == k) = false := beq_eq_false_iff_ne.mpr hk
        simp only [List.lookup_cons, hbeq] at h
        rw [List.filter_cons]
        by_cases hp : p (k, v) = true
        · simp [hp, List.lookup_cons, hbeq, ih h]
        · simp [hp, ih h]

theorem lookup_filter_of_nodup (p : String × RateHybridLimiter → Bool)
    (t : List (String × RateHybridLimiter)) (key : String)
    (l : RateHybridLimiter) (hnd : (t.map Prod.fst).Nodup)
    (h : t.lookup key = some l) :
    (t.filter p).lookup key = if p (key, l) then some l else none := by
  induction t with
  | nil => cases h
  | cons hd tl ih =>
      obtain ⟨k, v⟩ := hd
      have hnd1 : (tl.map Prod.fst).Nodup :=
        (List.nodup_cons.mp (by simpa using hnd)).2
      have hknotin : k ∉ tl.map Prod.fst :=
        (List.nodup_cons.mp (by simpa using hnd)).1
      by_cases hk : key = k
      · subst hk
        have hbeq : (key == key) = true := beq_self_eq_true key
        simp only [List.lookup_cons, hbeq] at h
        have hv : v = l := by injection h
        subst hv
        rw [List.filter_cons]
        by_cases hp : p (key, v) = true
        · simp [hp, List.lookup_cons, hbeq]
        · have hnone : tl.lookup key = none :=
            lookup_none_of_not_mem_keys tl key hknotin
          simp [hp, lookup_filter_none p tl key hnone]
      · have hbeq : (key == k) = false := beq_eq_false_iff_ne.mpr hk
        simp only [List.lookup_cons, hbeq] at h
        rw [List.filter_cons]
        by_cases hp : p (k, v) = true
        · simp only [hp, if_true, List.lookup_cons, hbeq]
          exact ih hnd1 h
        · simp only [hp, if_false, Bool.false_eq_true]
          exact ih hnd1 h

/-- C8: one eviction sweep cycle at scan time `now` removes exactly the
entries whose `last_seen` is older than `bucket_ttl`: a key kept by the
sweep keeps its limiter untouched, a stale key is absent afterwards, no
key appears from nowhere; and a subsequent `get_bucket` for an absent
key creates a fresh limiter — full bucket (`tokens = capacity`,
timestamped `now`) and zeroed window counts. -/
theorem sweep_spec (s : RateHybridLimiterStore) (now : ℚ)
    (key : String) (l : RateHybridLimiter)
    (hnd : (s.map.map Prod.fst).Nodup) :
    (s.map.lookup key = some l →
      (s.sweep now).map.lookup key =
        if dsince now l.last_seen ≤ s.bucket_ttl then some l else none) ∧
    (s.map.lookup key = none → (s.sweep now).map.lookup key = none) ∧
    (s.map.lookup key = none →
      ((s.get_bucket key now).1.bucket.tokens = s.default_capacity ∧
        (s.get_bucket key now).1.bucket.last_refill = now ∧
        (s.get_bucket key now).1.window.current_count = 0 ∧
        (s.get_bucket key now).1.window.prev_count = 0)) := by
  refine ⟨?_, ?_, ?_⟩
  · intro h
    unfold RateHybridLimiterStore.sweep
    have hfilter := lookup_filter_of_nodup
      (fun q => decide (dsince now q.2.last_seen ≤ s.bucket_ttl))
      s.map key l hnd h
    simpa using hfilter
  · intro h
    unfold RateHybridLimiterStore.sweep
    exact lookup_filter_none _ s.map key h
  · intro h
    unfold RateHybridLimiterStore.get_bucket
    rw [h]
    exact ⟨rfl, rfl, rfl, rfl⟩

/-- Witness for `sweep_spec`: a store holding one limiter last seen at
time 0 with TTL 300, swept at time 301, no longer contains the key. -/
theorem sweep_spec_witness :
    ((⟨[("k", ⟨⟨10, 10, 1, 0⟩, ⟨60, 20, 0, 0, 0⟩, 0, 20⟩)],
        10, 1, 60, 20, 300⟩ :
      RateHybridLimiterStore).sweep 301).map.lookup "k" = none := by
  have h := (sweep_spec
    ⟨[("k", ⟨⟨10, 10, 1, 0⟩, ⟨60, 20, 0, 0, 0⟩, 0, 20⟩)],
      10, 1, 60, 20, 300⟩ 301 "k"
    ⟨⟨10, 10, 1, 0⟩, ⟨60, 20, 0, 0, 0⟩, 0, 20⟩ (by decide)).1 (by decide)
  have hgt : ¬ (dsince 301 0 ≤ (300 : ℚ)) := by decide
  rwa [if_neg hgt] at h

/-!
Interleaving model of concurrent first accesses in `get_bucket`.

Each caller performs two atomic shared-memory operations for a fixed,
initially absent key: the initial `map.get(key)` read, and — on a miss,
after privately allocating its own limiter instance — the atomic
`DashMap::entry` call, which either finds the key occupied (and reuses
the installed instance) or installs the caller's own instance. The map
contents for the key are `Option ℕ`: `none` while absent, `some r` once
the instance allocated by caller `r` is installed. A schedule is an
arbitrary interleaving of caller steps.
-/

/-- Program counter of one caller running `get_bucket`. `start`: about
to perform the initial map read; `probe`: observed a miss and allocated
its own instance, about to run the atomic `entry` insert-if-absent;
`done r`: finished, holding the installed instance `r`. -/
inductive GetPC where
  | start : GetPC
  | probe : GetPC
  | done : ℕ → GetPC
deriving DecidableEq

/-- One atomic step of caller `tid` inside `get_bucket`. -/
def stepThread (m : Option ℕ) (pc : GetPC) (tid : ℕ) : Option ℕ × GetPC :=
  match pc, m with
  | .start, some v => (some v, .done v)
  | .start, none => (none, .probe)
  | .probe, some v => (some v, .done v)
  | .probe, none => (some tid, .done tid)
  | .done r, mm => (mm, .done r)

/-- Step caller `tid` in the system state (map contents plus per-caller
program counters); out-of-range ids do nothing. -/
def sysStep (σ : Option ℕ × List GetPC) (tid : ℕ) :
    Option ℕ × List GetPC :=
  match σ.2.get? tid with
  | none => σ
  | some pc =>
      ((stepThread σ.1 pc tid).1, σ.2.set tid (stepThread σ.1 pc tid).2)

/-- Run a schedule: an arbitrary interleaving of caller steps. -/
def runSched (σ : Option ℕ × List GetPC) :
    List ℕ → Option ℕ × List GetPC
  | [] => σ
  | t :: ts => runSched (sysStep σ t) ts

/-- Convergence: every caller that has finished holds exactly the
instance currently installed in the map. -/
def Converged (σ : Option ℕ × List GetPC) : Prop :=
  ∀ r : ℕ, GetPC.done r ∈ σ.2 → σ.1 = some r

theorem sysStep_get_none (σ : Option ℕ × List GetPC) (tid : ℕ)
    (hget : σ.2.get? tid = none) : sysStep σ tid = σ := by
  unfold sysStep
  rw [hget]

theorem sysStep_get_some (σ : Option ℕ × List GetPC) (tid : ℕ)
    (pc : GetPC) (hget : σ.2.get? tid = some pc) :
    sysStep σ tid =
      ((stepThread σ.1 pc tid).1, σ.2.set tid (stepThread σ.1 pc tid).2) := by
  unfold sysStep
  rw [hget]

theorem converged_sysStep (σ : Option ℕ × List GetPC) (tid : ℕ)
    (h : Converged σ) : Converged (sysStep σ tid) := by
  intro r hr
  cases hget : σ.2.get? tid with
  | none =>
      rw [sysStep_get_none σ tid hget] at hr ⊢
      exact h r hr
  | some pc =>
      rw [sysStep_get_some σ tid pc hget] at hr ⊢
      have hmem := List.mem_or_eq_of_mem_set hr
      cases pc with
      | start =>
          cases hm : σ.1 with
          | some v =>
              rw [hm] at hmem
              simp only [stepThread] at hmem ⊢
              rcases hmem with hin | heq
              · exact hm ▸ h r hin
              · injection heq with hv
                rw [hv]
          | none =>
              rw [hm] at hmem
              simp only [stepThread] at hmem ⊢
              rcases hmem with hin | heq
              · exact hm ▸ h r hin
              · cases heq
      | probe =>
          cases hm : σ.1 with
          | some v =>
              rw [hm] at hmem
              simp only [stepThread] at hmem ⊢
              rcases hmem with hin | heq
              · exact hm ▸ h r hin
              · injection heq with hv
                rw [hv]
          | none =>
              rw [hm] at hmem
              simp only [stepThread] at hmem ⊢
              rcases hmem with hin | heq
              · exact Option.noConfusion (hm ▸ h r hin)
              · injection heq with hv
                rw [hv]
      | done r0 =>
          simp only [stepThread] at hmem ⊢
          rcases hmem with hin | heq
          · exact h r hin
          · injection heq with hv
            subst hv
            exact h r (List.get?_mem hget)

theorem converged_runSched (σ : Option ℕ × List GetPC) (sched : List ℕ)
    (h : Converged σ) : Converged (runSched σ sched) := by
  induction sched generalizing σ with
  | nil => exact h
  | cons t ts ih => exact ih _ (converged_sysStep σ t h)

/-- C9: under every interleaving of any number of concurrent callers
running `get_bucket` for the same initially absent key, all callers that
complete return the same limiter instance, and that instance is the one
installed in the map — the atomic insert-if-absent `entry` step rules
out the check-then-insert race. -/
theorem get_or_create_race_free (n : ℕ) (sched : List ℕ) (r1 r2 : ℕ)
    (h1 : GetPC.done r1 ∈
      (runSched (none, List.replicate n GetPC.start) sched).2)
    (h2 : GetPC.done r2 ∈
      (runSched (none, List.replicate n GetPC.start) sched).2) :
    r1 = r2 ∧
      (runSched (none, List.replicate n GetPC.start) sched).1 = some r1 := by
  have hinit : Converged ((none : Option ℕ), List.replicate n GetPC.start) := by
    intro r hr
    cases List.eq_of_mem_replicate hr
  have hconv := converged_runSched _ sched hinit
  have e1 := hconv r1 h1
  have e2 := hconv r2 h2
  refine ⟨?_, e1⟩
  have := e1.symm.trans e2
  injection this

/-- Witness for `get_or_create_race_free`: two callers, both racing
through the miss path (schedule 0,1,0,1), converge on instance 0. -/
theorem get_or_create_race_free_witness :
    (runSched (none, List.replicate 2 GetPC.start) [0, 1, 0, 1]).1 =
      some 0 :=
  (get_or_create_race_free 2 [0, 1, 0, 1] 0 0 (by decide) (by decide)).2

end RateLimiter
